import Mathlib

/-
Verification of compas_cra / src/compas_cra/equilibrium/pyomo_helper.py.

The module is a flat collection of formula-selection functions
(initialisations, bounds, objectives, constraints), two assembly routines
(equilibrium_setup, static_equilibrium_constraints) and one result
write-back routine (pyomo_result_assembly).  Real-valued quantities are
modelled by the rationals; pyomo variables become explicit index
functions; the external helpers make_aeq and make_afr, explicitly out of
scope in the module, are parameters.
-/

set_option maxHeartbeats 1000000

namespace CompasCra

/-- Pyomo variable domains that the bounds functions can return. -/
inductive PyoDomain where
  | NonNegativeReals
  | Reals
deriving DecidableEq

/-- The slice of the pyomo model read by the formula-selection functions:
the indexed variables f (with index set f_id), d and alpha (with index set
alpha_id), and the per-point 3-vectors displs and forces used by the
ft_dt constraints. -/
structure PyModel where
  f_id : List Nat
  f : Nat → ℚ
  d : Nat → ℚ
  alpha_id : List Nat
  alpha : Nat → ℚ
  displs : Nat → Fin 3 → ℚ
  forces : Nat → Fin 3 → ℚ

/-- f_tilde_init, the inner function of initialisations:
initialise f tilde with [1, 0, 1, 1]. -/
def f_tilde_init (_model : PyModel) (i : Nat) : ℚ :=
  if i % 4 = 1 then 0 else 1

/-- initialisations: returns f_tilde_init for the selector f_tilde and
(implicitly) None for every other selector. -/
def initialisations (var : String) : Option (PyModel → Nat → ℚ) :=
  if var = "f_tilde" then some f_tilde_init else none

/-- The two shapes a bounds selection can take: a per-index domain, or a
per-index interval triple (lower, expression, upper). -/
inductive BoundsFun where
  | domain : (PyModel → Nat → PyoDomain) → BoundsFun
  | interval : (PyModel → Nat → ℚ × ℚ × ℚ) → BoundsFun

/-- f_tilde_bnds: bounds of f tilde, f tilde include [fn+, fn-, fu, fv]. -/
def f_tilde_bnds (_model : PyModel) (i : Nat) : PyoDomain :=
  if i % 4 = 0 ∨ i % 4 = 1 then PyoDomain.NonNegativeReals else PyoDomain.Reals

/-- f_bnds: bounds of f, f include [fn, fu, fv]. -/
def f_bnds (_model : PyModel) (i : Nat) : PyoDomain :=
  if i % 3 = 0 then PyoDomain.NonNegativeReals else PyoDomain.Reals

/-- d_bnds: the interval -d_bnd <= d[i] <= d_bnd. -/
def d_bnds (d_bnd : ℚ) (model : PyModel) (i : Nat) : ℚ × ℚ × ℚ :=
  (-d_bnd, model.d i, d_bnd)

/-- bounds: selects f_bnds, f_tilde_bnds or d_bnds by name, falling through
to None otherwise. -/
def bounds (var : String) (d_bnd : ℚ) : Option BoundsFun :=
  if var = "f" then some (BoundsFun.domain f_bnds)
  else if var = "f_tilde" then some (BoundsFun.domain f_tilde_bnds)
  else if var = "d" then some (BoundsFun.interval (d_bnds d_bnd))
  else none

/-- pyo.dot_product of an indexed variable with another over a shared index
set: the sum of the elementwise products. -/
def dot_product (ids : List Nat) (x y : Nat → ℚ) : ℚ :=
  (ids.map (fun i => x i * y i)).sum

/-- The inner helper _obj_weights: weighted tension/compression sum, with
weights = (W_alpha, W_compression, W_tension). -/
def obj_weights (weights : ℚ × ℚ × ℚ) (model : PyModel) : ℚ :=
  model.f_id.foldl
    (fun f_sum i =>
      if i % 4 = 1 then f_sum + model.f i * model.f i * weights.2.2
      else if i % 4 = 0 then f_sum + model.f i * model.f i * weights.2.1
      else f_sum) 0

/-- obj_rbe: RBE objective function. -/
def obj_rbe (weights : ℚ × ℚ × ℚ) (model : PyModel) : ℚ :=
  obj_weights weights model

/-- obj_cra: CRA objective function.  The closure has weights in scope but
never reads it. -/
def obj_cra (_weights : ℚ × ℚ × ℚ) (model : PyModel) : ℚ :=
  let alpha_sum := dot_product model.alpha_id model.alpha model.alpha
  let f_sum := model.f_id.foldl
    (fun f_sum i => if i % 3 = 0 then f_sum + model.f i * model.f i else f_sum) 0
  f_sum + alpha_sum

/-- obj_cra_penalty: CRA penalty objective function. -/
def obj_cra_penalty (weights : ℚ × ℚ × ℚ) (model : PyModel) : ℚ :=
  let alpha_sum := dot_product model.alpha_id model.alpha model.alpha * weights.1
  let f_sum := obj_weights weights model
  alpha_sum + f_sum

/-- objectives: selects the objective function by solver name, falling
through to None otherwise. -/
def objectives (solver : String) (weights : ℚ × ℚ × ℚ) : Option (PyModel → ℚ) :=
  if solver = "cra" then some (obj_cra weights)
  else if solver = "cra_penalty" then some (obj_cra_penalty weights)
  else if solver = "rbe" then some (obj_rbe weights)
  else none

/-- The three shapes a constraint selection can take: an (expression, rhs)
equality pair indexed by one integer, a (lower, expression, upper) triple,
or an equality pair indexed by an integer and a coordinate. -/
inductive ConstraintFun where
  | pair : (PyModel → Nat → ℚ × ℚ) → ConstraintFun
  | triple : (PyModel → Nat → Option ℚ × ℚ × Option ℚ) → ConstraintFun
  | pairXyz : (PyModel → Nat → Fin 3 → ℚ × ℚ) → ConstraintFun

/-- contact_con: contact constraint (d[3i] + eps) * f[3i] = 0. -/
def contact_con (eps : ℚ) (model : PyModel) (i : Nat) : ℚ × ℚ :=
  ((model.d (i * 3) + eps) * model.f (i * 3), 0)

/-- penalty_contact_con: penalty formulation contact constraint. -/
def penalty_contact_con (eps : ℚ) (model : PyModel) (i : Nat) : ℚ × ℚ :=
  ((model.d (i * 3) + eps) * model.f (i * 4), 0)

/-- fn_np_con: fn+ and fn- cannot coexist. -/
def fn_np_con (_eps : ℚ) (model : PyModel) (i : Nat) : ℚ × ℚ :=
  (model.f (i * 4) * model.f (i * 4 + 1), 0)

/-- no_penetration_con: 0 <= d[3t] + eps, no upper bound. -/
def no_penetration_con (eps : ℚ) (m : PyModel) (t : Nat) : Option ℚ × ℚ × Option ℚ :=
  (some 0, m.d (t * 3) + eps, none)

/-- ft_dt_con: friction and virtual sliding alignment. -/
def ft_dt_con (_eps : ℚ) (model : PyModel) (i : Nat) (xyz : Fin 3) : ℚ × ℚ :=
  let d_t := fun k => model.displs (i * 3 + 1) k + model.displs (i * 3 + 2) k
  let f_t := fun k => model.forces (i * 3 + 1) k + model.forces (i * 3 + 2) k
  (f_t xyz, -(d_t xyz) * model.alpha i)

/-- penalty_ft_dt_con: penalty formulation friction and virtual sliding
alignment. -/
def penalty_ft_dt_con (_eps : ℚ) (model : PyModel) (i : Nat) (xyz : Fin 3) : ℚ × ℚ :=
  let d_t := fun k => model.displs (i * 3 + 1) k + model.displs (i * 3 + 2) k
  let f_t := fun k => model.forces (i * 4 + 2) k + model.forces (i * 4 + 3) k
  (f_t xyz, -(d_t xyz) * model.alpha i)

/-- constraints: selects the constraint function by name, falling through
to None otherwise. -/
def constraints (name : String) (eps : ℚ) : Option ConstraintFun :=
  if name = "contact" then some (ConstraintFun.pair (contact_con eps))
  else if name = "penalty_contact" then some (ConstraintFun.pair (penalty_contact_con eps))
  else if name = "fn_np" then some (ConstraintFun.pair (fn_np_con eps))
  else if name = "no_penetration" then some (ConstraintFun.triple (no_penetration_con eps))
  else if name = "ft_dt" then some (ConstraintFun.pairXyz (ft_dt_con eps))
  else if name = "penalty_ft_dt" then some (ConstraintFun.pairXyz (penalty_ft_dt_con eps))
  else none

/-- A forces entry written back onto an interface: the dict with keys
c_np, c_nn, c_u, c_v. -/
structure PyForce where
  c_np : ℚ
  c_nn : ℚ
  c_u : ℚ
  c_v : ℚ
deriving DecidableEq

/-- A contact interface: its contact points and its forces attribute. -/
structure Interface where
  points : List (ℚ × ℚ × ℚ)
  forces : List PyForce
deriving DecidableEq

/-- A graph node of the assembly: its key, its is_support attribute, the
volume of its block, and its displacement attribute (none when unset). -/
structure CNode where
  key : Nat
  is_support : Bool
  volume : ℚ
  displacement : Option (List ℚ)
deriving DecidableEq

/-- A graph edge of the assembly: its endpoints and its interfaces
attribute. -/
structure CEdge where
  u : Nat
  v : Nat
  interfaces : List Interface
deriving DecidableEq

/-- The assembly: its graph nodes in iteration order and its edges in
iteration order. -/
structure Assembly where
  nodes : List CNode
  edges : List CEdge
deriving DecidableEq

/-- Default node used by getD. -/
def dNode : CNode := ⟨0, false, 0, none⟩

/-- Default interface used by getD. -/
def dItf : Interface := ⟨[], []⟩

/-- Default edge used by getD. -/
def dEdge : CEdge := ⟨0, 0, []⟩

/-- The fixed list of equilibrium_setup: nodes_where({is_support: True})
yields the keys of support nodes in iteration order, and key_index maps the
key of the j-th node to j, so the composite is the list of positions whose
node has is_support set. -/
def fixedIndices (assembly : Assembly) : List Nat :=
  (List.range assembly.nodes.length).filter
    (fun i => (assembly.nodes.getD i dNode).is_support)

/-- The free list: list(set(range(num_nodes)) - set(fixed)); CPython
iterates this set of consecutive small integers in increasing order. -/
def freeIndices (assembly : Assembly) : List Nat :=
  (List.range assembly.nodes.length).filter (fun i => ¬ i ∈ fixedIndices assembly)

/-- equilibrium_setup, parametrised by the external helper make_aeq from
compas_cra.equilibrium.cra_helper, which returns the raw equilibrium matrix
(as a list of rows) together with vcount.  The row selection
aeq[[index * 6 + i for index in free for i in range(6)], :] becomes a getD
over the generated row-index list. -/
def equilibrium_setup (make_aeq : Assembly → List (List ℚ) × Nat)
    (assembly : Assembly) : List (List ℚ) × Nat × List Nat :=
  let free := freeIndices assembly
  let aeq := (make_aeq assembly).1
  let vcount := (make_aeq assembly).2
  let aeq2 := (free.flatMap (fun index => (List.range 6).map (fun i => index * 6 + i))).map
    (fun r => aeq.getD r [])
  (aeq2, vcount, free)

/-- A pyomo MatrixConstraint block over model.array_f: the matrix (kept as
dense rows) and the per-row lower and upper bounds, none encoding None. -/
structure MatrixConstraintData where
  mat : List (List ℚ)
  lower : List (Option ℚ)
  upper : List (Option ℚ)
deriving DecidableEq

/-- The initial p of static_equilibrium_constraints:
[[0, 0, 0, 0, 0, 0] for i in range(num_nodes)]. -/
def pInit (num_nodes : Nat) : List (List ℚ) :=
  (List.range num_nodes).map (fun _ => [0, 0, 0, 0, 0, 0])

/-- One step of the loop over nodes: p[index][2] = -block.volume * density,
where index = key_index[node] is the position of the node. -/
def pStep (density : ℚ) (p : List (List ℚ)) (e : Nat × CNode) : List (List ℚ) :=
  p.set e.1 ((p.getD e.1 []).set 2 (-e.2.volume * density))

/-- The dead-load vector p of static_equilibrium_constraints before the
free-row selection. -/
def buildP (assembly : Assembly) (density : ℚ) : List (List ℚ) :=
  assembly.nodes.enum.foldl (pStep density) (pInit assembly.nodes.length)

/-- static_equilibrium_constraints, parametrised by the external helper
make_afr (vcount, fcon_number, mu) from compas_cra.equilibrium.cra_helper.
p[free, :].reshape((-1, 1)) flattens to the rows of p selected by free, in
order; the equilibrium block has both bounds equal to -p and the friction
block has lower bounds [None]*rows and upper bounds np.zeros(rows). -/
def static_equilibrium_constraints (make_afr : Nat → Nat → ℚ → List (List ℚ))
    (assembly : Assembly) (aeq : List (List ℚ)) (vcount : Nat) (free : List Nat)
    (density _mu : ℚ) : MatrixConstraintData × MatrixConstraintData :=
  let p := buildP assembly density
  let pflat := free.flatMap (fun i => p.getD i [])
  let afr := make_afr vcount 8 _mu
  let equilibrium_constraints : MatrixConstraintData :=
    ⟨aeq, pflat.map (fun x => some (-x)), pflat.map (fun x => some (-x))⟩
  let friction_constraint : MatrixConstraintData :=
    ⟨afr, (List.range afr.length).map (fun _ => none),
      (List.range afr.length).map (fun _ => some 0)⟩
  (equilibrium_constraints, friction_constraint)

/-- The solved pyomo model read by pyomo_result_assembly: the values of the
flat force variable f, and the displacement variable q when the model has a
component of that name. -/
structure SolvedModel where
  f : Nat → ℚ
  q : Option (List ℚ)

/-- shift = 4 for cra_penalty and rbe; shift = 3 when penalty is false. -/
def shiftOf (penalty : Bool) : Nat :=
  if penalty then 4 else 3

/-- The forces dict stored for contact point i of an interface whose block
of variables starts at offset. -/
def pointForce (f : Nat → ℚ) (penalty : Bool) (offset i : Nat) : PyForce :=
  let shift := shiftOf penalty
  { c_np := f (offset + shift * i + 0)
    c_nn := if shift = 4 then f (offset + shift * i + 1) else 0
    c_u := f (offset + shift * i + 1 + (if shift = 4 then 1 else 0))
    c_v := f (offset + shift * i + 2 + (if shift = 4 then 1 else 0)) }

/-- The fresh forces list of an interface with n contact points. -/
def interfaceForces (f : Nat → ℚ) (penalty : Bool) (offset n : Nat) : List PyForce :=
  (List.range n).map (pointForce f penalty offset)

/-- The inner loop of the force write-back: each interface of the edge gets
a fresh forces list and the offset advances by shift * n. -/
def saveForcesInterfaces (f : Nat → ℚ) (penalty : Bool) :
    List Interface → Nat → List Interface × Nat
  | [], offset => ([], offset)
  | itf :: rest, offset =>
    let n := itf.points.length
    let res := saveForcesInterfaces f penalty rest (offset + shiftOf penalty * n)
    ({ itf with forces := interfaceForces f penalty offset n } :: res.1, res.2)

/-- The outer loop of the force write-back over the edges, threading the
running offset. -/
def saveForcesEdges (f : Nat → ℚ) (penalty : Bool) :
    List CEdge → Nat → List CEdge × Nat
  | [], offset => ([], offset)
  | e :: rest, offset =>
    let r1 := saveForcesInterfaces f penalty e.interfaces offset
    let r2 := saveForcesEdges f penalty rest r1.2
    ({ e with interfaces := r1.1 } :: r2.1, r2.2)

/-- The displacement write-back: support nodes are skipped, every other
node receives q[offset : offset + 6] and the offset advances by 6. -/
def saveDisplacements (q : List ℚ) : List CNode → Nat → List CNode
  | [], _ => []
  | node :: rest, offset =>
    if node.is_support then node :: saveDisplacements q rest offset
    else { node with displacement := some ((q.drop offset).take 6) } ::
      saveDisplacements q rest (offset + 6)

/-- pyomo_result_assembly: save forces onto every interface of every edge,
then, when the model has a component q, save displacements onto the
non-support nodes.  The verbose flag only controls printing and is
omitted. -/
def pyomo_result_assembly (model : SolvedModel) (assembly : Assembly)
    (penalty : Bool) : Assembly :=
  let edges := (saveForcesEdges model.f penalty assembly.edges 0).1
  let nodes :=
    match model.q with
    | none => assembly.nodes
    | some q => saveDisplacements q assembly.nodes 0
  { nodes := nodes, edges := edges }

/-- All interfaces of a list of edges, in traversal order of the force
write-back. -/
def flatInterfaces (edges : List CEdge) : List Interface :=
  edges.flatMap (fun e => e.interfaces)

/-- Total number of contact points of a list of interfaces. -/
def pointCount (l : List Interface) : Nat :=
  (l.map (fun itf => itf.points.length)).sum

/-- Number of non-support nodes in a list. -/
def countFree (l : List CNode) : Nat :=
  (l.filter (fun node => ! node.is_support)).length

/-- Claim-side description of the flat-index origin of the j-th interface
in traversal order: shift times the number of contact points of all
earlier interfaces. -/
def claimOffset (penalty : Bool) (l : List Interface) (j : Nat) : Nat :=
  (if penalty then 4 else 3) * pointCount (l.take j)

/-- Claim-side description of the forces entry of the i-th contact point of
an interface whose variables start at off: c_np at off + shift * i, then
either c_nn constant 0 and c_u, c_v at offsets 1 and 2 (penalty false), or
c_nn at offset 1 and c_u, c_v at offsets 2 and 3 (penalty true). -/
def claimPointForce (f : Nat → ℚ) (penalty : Bool) (off i : Nat) : PyForce :=
  { c_np := f (off + (if penalty then 4 else 3) * i + 0)
    c_nn := if penalty then f (off + (if penalty then 4 else 3) * i + 1) else 0
    c_u := f (off + (if penalty then 4 else 3) * i + 1 + (if penalty then 1 else 0))
    c_v := f (off + (if penalty then 4 else 3) * i + 2 + (if penalty then 1 else 0)) }

/-- The domain returned by a bounds selection at model m and index i, when
the selection is a domain function. -/
def domainAt (b : Option BoundsFun) (m : PyModel) (i : Nat) : Option PyoDomain :=
  match b with
  | some (BoundsFun.domain g) => some (g m i)
  | _ => none

/-- A concrete support node used to instantiate the theorems. -/
def exNode0 : CNode := { key := 0, is_support := true, volume := 2, displacement := none }

/-- A concrete free node used to instantiate the theorems. -/
def exNode1 : CNode := { key := 1, is_support := false, volume := 3, displacement := none }

/-- A concrete interface with two contact points. -/
def exItf : Interface := { points := [(0, 0, 0), (1, 0, 0)], forces := [] }

/-- A concrete edge holding exItf. -/
def exEdge : CEdge := { u := 0, v := 1, interfaces := [exItf] }

/-- A concrete two-block assembly with one support node. -/
def exAssembly : Assembly := { nodes := [exNode0, exNode1], edges := [exEdge] }

/-- A concrete solved model. -/
def exModel : SolvedModel := { f := fun i => (i : ℚ), q := some [1, 2, 3, 4, 5, 6] }

/-- A concrete stand-in for the external make_aeq. -/
def exMakeAeq : Assembly → List (List ℚ) × Nat :=
  fun a => ((List.range (6 * a.nodes.length)).map (fun r => [(r : ℚ)]), 2)

/-- A concrete stand-in for the external make_afr. -/
def exMakeAfr : Nat → Nat → ℚ → List (List ℚ) :=
  fun vcount fcon _mu => (List.range (vcount * fcon)).map (fun r => [(r : ℚ)])

/-- A second stand-in for make_afr that agrees with exMakeAfr only at
fcon_number = 8. -/
def exMakeAfr2 : Nat → Nat → ℚ → List (List ℚ) :=
  fun vcount fcon mu => if fcon = 8 then exMakeAfr vcount fcon mu else []

/-- C6: the bounds selector returns per-index domain functions determined
by residue arithmetic: for f_tilde, every index i with i % 4 equal to 0 or
1 is mapped to the non-negative reals and every other index to the reals;
for f, every index i with i % 3 = 0 is mapped to the non-negative reals
and every other index to the reals. -/
theorem bounds_residue_domains (d_bnd : ℚ) (m : PyModel) (i : Nat) :
    domainAt (bounds "f_tilde" d_bnd) m i =
      some (if i % 4 = 0 ∨ i % 4 = 1 then PyoDomain.NonNegativeReals else PyoDomain.Reals)
    ∧ domainAt (bounds "f" d_bnd) m i =
      some (if i % 3 = 0 then PyoDomain.NonNegativeReals else PyoDomain.Reals) := by
  exact ⟨rfl, rfl⟩

/-- C8: every selector string outside the documented options makes the
corresponding formula-selection function return None rather than raise. -/
theorem unknown_selectors_return_none (v1 v2 v3 v4 : String) (d_bnd eps : ℚ)
    (w : ℚ × ℚ × ℚ)
    (h1 : v1 ≠ "f_tilde")
    (h2 : ¬ v2 ∈ (["f", "f_tilde", "d"] : List String))
    (h3 : ¬ v3 ∈ (["cra", "cra_penalty", "rbe"] : List String))
    (h4 : ¬ v4 ∈ (["contact", "penalty_contact", "fn_np", "no_penetration",
        "ft_dt", "penalty_ft_dt"] : List String)) :
    initialisations v1 = none ∧ bounds v2 d_bnd = none
    ∧ objectives v3 w = none ∧ constraints v4 eps = none := by
  simp only [List.mem_cons, List.not_mem_nil, or_false, not_or] at h2 h3 h4
  refine ⟨?_, ?_, ?_, ?_⟩
  · simp [initialisations, h1]
  · simp [bounds, h2.1, h2.2.1, h2.2.2]
  · simp [objectives, h3.1, h3.2.1, h3.2.2]
  · simp [constraints, h4.1, h4.2.1, h4.2.2.1, h4.2.2.2.1, h4.2.2.2.2]

/-- C8 witness: all four selectors return None at the concrete unknown
selector string x. -/
theorem unknown_selectors_return_none_witness :
    initialisations "x" = none ∧ bounds "x" 1 = none
    ∧ objectives "x" (1, 1, 1) = none ∧ constraints "x" 1 = none :=
  unknown_selectors_return_none "x" "x" "x" "x" 1 1 (1, 1, 1)
    (by decide) (by decide) (by decide) (by decide)

/-- Folding the CRA accumulator over the force index set equals the sum of
squares over the indices divisible by 3. -/
theorem foldl_sq_filter (f : Nat → ℚ) :
    ∀ (l : List Nat) (acc : ℚ),
      l.foldl (fun s i => if i % 3 = 0 then s + f i * f i else s) acc
        = acc + ((l.filter (fun i => i % 3 = 0)).map (fun i => f i * f i)).sum := by
  intro l
  induction l with
  | nil => intro acc; simp
  | cons a t ih =>
    intro acc
    by_cases h : a % 3 = 0
    · simp [List.filter_cons, h, ih, add_assoc]
    · simp [List.filter_cons, h, ih]

/-- C9: the cra objective is independent of the weights parameter, and its
value is the unweighted sum of f[i] squared over indices i with i % 3 = 0
plus the dot product of alpha with itself; weights enter only through the
cra_penalty and rbe objectives. -/
theorem obj_cra_weight_independent (w1 w2 : ℚ × ℚ × ℚ) (m : PyModel) :
    (objectives "cra" w1).map (fun g => g m) = (objectives "cra" w2).map (fun g => g m)
    ∧ (objectives "cra" w1).map (fun g => g m)
      = some (((m.f_id.filter (fun i => i % 3 = 0)).map (fun i => m.f i * m.f i)).sum
          + (m.alpha_id.map (fun i => m.alpha i * m.alpha i)).sum) := by
  constructor
  · rfl
  · show some (obj_cra w1 m) = _
    simp [obj_cra, dot_product, foldl_sq_filter]

/-- The row-index block of one free node: positions index * 6 + i. -/
theorem getD_range_six_map (a i : Nat) (hi : i < 6) :
    ((List.range 6).map (fun j => a * 6 + j)).getD i 0 = a * 6 + i := by
  interval_cases i <;> rfl

/-- The generated row-index list of equilibrium_setup, read at flat
position 6 * k + i, names row free[k] * 6 + i of the raw matrix. -/
theorem flatMap_six_getD (free : List Nat) :
    ∀ (k i : Nat), k < free.length → i < 6 →
      (free.flatMap (fun index => (List.range 6).map (fun j => index * 6 + j))).getD
          (6 * k + i) 0
        = free.getD k 0 * 6 + i := by
  induction free with
  | nil => intro k i hk _; exact absurd hk (Nat.not_lt_zero k)
  | cons a t ih =>
    intro k i hk hi
    rw [List.flatMap_cons]
    cases k with
    | zero =>
      have h6 : 6 * 0 + i < ((List.range 6).map (fun j => a * 6 + j)).length := by
        simp; omega
      rw [List.getD_append _ _ _ _ h6]
      have hz : 6 * 0 + i = i := by omega
      rw [hz, List.getD_cons_zero, getD_range_six_map a i hi]
    | succ k2 =>
      have hge : ((List.range 6).map (fun j => a * 6 + j)).length ≤ 6 * (k2 + 1) + i := by
        simp; omega
      rw [List.getD_append_right _ _ _ _ hge]
      have hsub : 6 * (k2 + 1) + i - ((List.range 6).map (fun j => a * 6 + j)).length
          = 6 * k2 + i := by simp; omega
      rw [hsub, List.getD_cons_succ]
      exact ih k2 i (Nat.lt_of_succ_lt_succ hk) hi

/-- Sum of the constant 6 over a list. -/
theorem sum_map_six (l : List Nat) : (l.map (fun _ => 6)).sum = 6 * l.length := by
  simp [List.map_const', List.sum_replicate, smul_eq_mul, Nat.mul_comm]

/-- C1: equilibrium_setup restricts the raw matrix of make_aeq to the free
nodes: the free list holds exactly the indices of the non-support nodes,
each once; the returned matrix has six rows per free node, and its row at
flat position 6 * k + i is row free[k] * 6 + i of the raw matrix. -/
theorem equilibrium_setup_spec (make_aeq : Assembly → List (List ℚ) × Nat)
    (assembly : Assembly) :
    (equilibrium_setup make_aeq assembly).2.2.Nodup
    ∧ (∀ j, j ∈ (equilibrium_setup make_aeq assembly).2.2 ↔
        j < assembly.nodes.length ∧ (assembly.nodes.getD j dNode).is_support = false)
    ∧ (equilibrium_setup make_aeq assembly).1.length
        = 6 * (equilibrium_setup make_aeq assembly).2.2.length
    ∧ ∀ k i, k < (equilibrium_setup make_aeq assembly).2.2.length → i < 6 →
        (equilibrium_setup make_aeq assembly).1.getD (6 * k + i) []
          = (make_aeq assembly).1.getD
              ((equilibrium_setup make_aeq assembly).2.2.getD k 0 * 6 + i) [] := by
  refine ⟨?_, ?_, ?_, ?_⟩
  · exact (List.nodup_range _).filter _
  · intro j
    simp only [equilibrium_setup, freeIndices, fixedIndices, List.mem_filter,
      List.mem_range, decide_eq_true_eq]
    constructor
    · rintro ⟨hj, hn⟩
      refine ⟨hj, ?_⟩
      cases hs : (assembly.nodes.getD j dNode).is_support
      · rfl
      · exact absurd ⟨hj, hs⟩ hn
    · rintro ⟨hj, hs⟩
      refine ⟨hj, fun hmem => ?_⟩
      rw [hs] at hmem
      exact Bool.false_ne_true hmem.2
  · simp only [equilibrium_setup, List.length_map, List.length_flatMap,
      Function.comp_def, List.length_range]
    exact sum_map_six _
  · intro k i hk hi
    simp only [equilibrium_setup] at hk ⊢
    have hlenf : ((freeIndices assembly).flatMap
        (fun index => (List.range 6).map (fun j => index * 6 + j))).length
        = 6 * (freeIndices assembly).length := by
      simp only [List.length_flatMap, Function.comp_def, List.length_map, List.length_range]
      exact sum_map_six _
    have h2 : 6 * k + i < ((freeIndices assembly).flatMap
        (fun index => (List.range 6).map (fun j => index * 6 + j))).length := by
      rw [hlenf]; omega
    have h1 : 6 * k + i < (((freeIndices assembly).flatMap
        (fun index => (List.range 6).map (fun j => index * 6 + j))).map
          (fun r => (make_aeq assembly).1.getD r [])).length := by
      rw [List.length_map]; exact h2
    rw [List.getD_eq_getElem _ _ h1, List.getElem_map]
    congr 1
    rw [← List.getD_eq_getElem _ 0 h2]
    exact flatMap_six_getD (freeIndices assembly) k i hk hi

/-- C1 witness: in the concrete assembly the only free node is node 1, so
the first returned row is raw row 6. -/
theorem equilibrium_setup_spec_witness :
    (equilibrium_setup exMakeAeq exAssembly).1.getD (6 * 0 + 0) []
      = (exMakeAeq exAssembly).1.getD
          ((equilibrium_setup exMakeAeq exAssembly).2.2.getD 0 0 * 6 + 0) [] :=
  (equilibrium_setup_spec exMakeAeq exAssembly).2.2.2 0 0 (by decide) (by decide)

/-- Writing at position A.length of A ++ b :: l replaces b. -/
theorem set_append_len {α : Type} (A : List α) (b c : α) (l : List α) :
    (A ++ b :: l).set A.length c = A ++ c :: l := by
  induction A with
  | nil => rfl
  | cons a t ih => simp [List.set_cons_succ, ih]

/-- Reading at position A.length of A ++ b :: l gives b. -/
theorem getD_append_len {α : Type} (A : List α) (b d : α) (l : List α) :
    (A ++ b :: l).getD A.length d = b := by
  rw [List.getD_append_right _ _ _ _ (Nat.le_refl _), Nat.sub_self, List.getD_cons_zero]

/-- The node loop of static_equilibrium_constraints, started after a prefix
A of already-written rows, turns each remaining zero row into the row
[0, 0, -volume * density, 0, 0, 0] of its node. -/
theorem buildP_go (density : ℚ) :
    ∀ (l : List CNode) (A : List (List ℚ)),
      (l.enumFrom A.length).foldl (pStep density)
          (A ++ l.map (fun _ => [0, 0, 0, 0, 0, 0]))
        = A ++ l.map (fun node => [0, 0, -node.volume * density, 0, 0, 0]) := by
  intro l
  induction l with
  | nil => intro A; simp
  | cons node t ih =>
    intro A
    rw [List.enumFrom_cons, List.foldl_cons]
    have hstep : pStep density
        (A ++ (node :: t).map (fun _ => ([0, 0, 0, 0, 0, 0] : List ℚ))) (A.length, node)
        = (A ++ [[0, 0, -node.volume * density, 0, 0, 0]])
            ++ t.map (fun _ => [0, 0, 0, 0, 0, 0]) := by
      simp only [pStep, List.map_cons]
      rw [getD_append_len, set_append_len]
      simp
    rw [hstep]
    have h2 := ih (A ++ [[0, 0, -node.volume * density, 0, 0, 0]])
    simp only [List.length_append, List.length_cons, List.length_nil, Nat.zero_add,
      List.append_assoc, List.singleton_append, List.map_cons] at h2 ⊢
    exact h2

/-- buildP writes, for every node in iteration order, the dead-load row
[0, 0, -volume * density, 0, 0, 0]. -/
theorem buildP_eq (assembly : Assembly) (density : ℚ) :
    buildP assembly density
      = assembly.nodes.map (fun node => [0, 0, -node.volume * density, 0, 0, 0]) := by
  have h := buildP_go density assembly.nodes []
  simp only [List.nil_append, List.length_nil] at h
  rw [buildP]
  have hinit : pInit assembly.nodes.length
      = assembly.nodes.map (fun _ => [0, 0, 0, 0, 0, 0]) := by
    simp [pInit, List.map_const']
  rw [hinit]
  exact h

/-- C2: the equilibrium block of static_equilibrium_constraints is an
equality block whose lower and upper bounds are both -p, where p stacks,
per free node in free-list order, the 6-vector with third component
-(volume * density) and zeros elsewhere; the friction block has no lower
bound and upper bound zero in every row. -/
theorem static_equilibrium_constraints_spec
    (make_afr : Nat → Nat → ℚ → List (List ℚ)) (assembly : Assembly)
    (aeq : List (List ℚ)) (vcount : Nat) (free : List Nat) (density mu : ℚ)
    (hfree : ∀ j ∈ free, j < assembly.nodes.length) :
    ((static_equilibrium_constraints make_afr assembly aeq vcount free density mu).1.lower
        = (static_equilibrium_constraints make_afr assembly aeq vcount free density mu).1.upper)
    ∧ (static_equilibrium_constraints make_afr assembly aeq vcount free density mu).1.upper
        = (free.flatMap (fun j =>
            [(0 : ℚ), 0, -((assembly.nodes.getD j dNode).volume * density), 0, 0, 0])).map
            (fun x => some (-x))
    ∧ (static_equilibrium_constraints make_afr assembly aeq vcount free density mu).2.lower
        = List.replicate (make_afr vcount 8 mu).length none
    ∧ (static_equilibrium_constraints make_afr assembly aeq vcount free density mu).2.upper
        = List.replicate (make_afr vcount 8 mu).length (some 0) := by
  refine ⟨rfl, ?_, ?_, ?_⟩
  · have hrow : ∀ j ∈ free, (buildP assembly density).getD j []
        = [(0 : ℚ), 0, -((assembly.nodes.getD j dNode).volume * density), 0, 0, 0] := by
      intro j hj
      have hjl : j < assembly.nodes.length := hfree j hj
      have hlen2 : j < (assembly.nodes.map
          (fun node => [(0 : ℚ), 0, -node.volume * density, 0, 0, 0])).length := by
        rw [List.length_map]; exact hjl
      rw [buildP_eq, List.getD_eq_getElem _ _ hlen2, List.getElem_map,
        ← List.getD_eq_getElem _ dNode hjl]
      simp [neg_mul]
    simp only [static_equilibrium_constraints]
    congr 1
    exact List.flatMap_congr hrow
  · simp [static_equilibrium_constraints, List.map_const']
  · simp [static_equilibrium_constraints, List.map_const']

/-- C2 witness: in the concrete assembly with free list [1] and density 1,
the equilibrium bounds are the negated stacked dead-load vector of node 1. -/
theorem static_equilibrium_constraints_spec_witness :
    (static_equilibrium_constraints exMakeAfr exAssembly [] 2 [1] 1 1).1.upper
      = (([1] : List Nat).flatMap (fun j =>
          [(0 : ℚ), 0, -((exAssembly.nodes.getD j dNode).volume * 1), 0, 0, 0])).map
          (fun x => some (-x)) :=
  (static_equilibrium_constraints_spec exMakeAfr exAssembly [] 2 [1] 1 1 (by decide)).2.1

/-- C5: static_equilibrium_constraints always calls make_afr with
fcon_number = 8: the friction matrix is make_afr vcount 8 mu, and any two
make_afr helpers agreeing at fcon_number = 8 give identical results, so no
argument can change the number of cone facets. -/
theorem make_afr_fixed_eight
    (make_afr make_afr2 : Nat → Nat → ℚ → List (List ℚ)) (assembly : Assembly)
    (aeq : List (List ℚ)) (vcount : Nat) (free : List Nat) (density mu : ℚ)
    (h : make_afr2 vcount 8 mu = make_afr vcount 8 mu) :
    (static_equilibrium_constraints make_afr assembly aeq vcount free density mu).2.mat
        = make_afr vcount 8 mu
    ∧ static_equilibrium_constraints make_afr2 assembly aeq vcount free density mu
        = static_equilibrium_constraints make_afr assembly aeq vcount free density mu := by
  refine ⟨rfl, ?_⟩
  simp only [static_equilibrium_constraints, h]

/-- C5 witness: exMakeAfr2 agrees with exMakeAfr only at fcon_number = 8
and the two calls coincide. -/
theorem make_afr_fixed_eight_witness :
    (static_equilibrium_constraints exMakeAfr exAssembly [] 2 [1] 1 1).2.mat
        = exMakeAfr 2 8 1
    ∧ static_equilibrium_constraints exMakeAfr2 exAssembly [] 2 [1] 1 1
        = static_equilibrium_constraints exMakeAfr exAssembly [] 2 [1] 1 1 :=
  make_afr_fixed_eight exMakeAfr exMakeAfr2 exAssembly [] 2 [1] 1 1 rfl

/-- C7: the module keeps no state: each of its functions, applied twice to
equal arguments, returns equal results. -/
theorem module_deterministic :
    (∀ x y : String, x = y → initialisations x = initialisations y)
    ∧ (∀ x y : String × ℚ, x = y → bounds x.1 x.2 = bounds y.1 y.2)
    ∧ (∀ x y : String × (ℚ × ℚ × ℚ), x = y → objectives x.1 x.2 = objectives y.1 y.2)
    ∧ (∀ x y : String × ℚ, x = y → constraints x.1 x.2 = constraints y.1 y.2)
    ∧ (∀ x y : (Assembly → List (List ℚ) × Nat) × Assembly, x = y →
        equilibrium_setup x.1 x.2 = equilibrium_setup y.1 y.2)
    ∧ (∀ x y : (Nat → Nat → ℚ → List (List ℚ)) × Assembly × List (List ℚ) × Nat ×
        List Nat × ℚ × ℚ, x = y →
        static_equilibrium_constraints x.1 x.2.1 x.2.2.1 x.2.2.2.1 x.2.2.2.2.1
            x.2.2.2.2.2.1 x.2.2.2.2.2.2
          = static_equilibrium_constraints y.1 y.2.1 y.2.2.1 y.2.2.2.1 y.2.2.2.2.1
            y.2.2.2.2.2.1 y.2.2.2.2.2.2)
    ∧ (∀ x y : SolvedModel × Assembly × Bool, x = y →
        pyomo_result_assembly x.1 x.2.1 x.2.2 = pyomo_result_assembly y.1 y.2.1 y.2.2) := by
  refine ⟨?_, ?_, ?_, ?_, ?_, ?_, ?_⟩ <;> (intro x y h; rw [h])

/-- C7 witness: two calls with equal concrete arguments coincide. -/
theorem module_deterministic_witness :
    objectives "cra" (1, 1, 1) = objectives "cra" (1, 1, 1)
    ∧ pyomo_result_assembly exModel exAssembly false
      = pyomo_result_assembly exModel exAssembly false :=
  ⟨module_deterministic.2.2.1 ("cra", (1, 1, 1)) ("cra", (1, 1, 1)) rfl,
   module_deterministic.2.2.2.2.2.2 (exModel, exAssembly, false)
     (exModel, exAssembly, false) rfl⟩

/-- After the interface loop the running offset has advanced by shift times
the number of contact points seen. -/
theorem saveForcesInterfaces_snd (f : Nat → ℚ) (penalty : Bool) :
    ∀ (l : List Interface) (off : Nat),
      (saveForcesInterfaces f penalty l off).2 = off + shiftOf penalty * pointCount l := by
  intro l
  induction l with
  | nil => intro off; simp [saveForcesInterfaces, pointCount]
  | cons itf t ih =>
    intro off
    simp [saveForcesInterfaces, ih, pointCount, Nat.mul_add, Nat.add_assoc]

/-- The interface loop distributes over list append, threading the
offset. -/
theorem saveForcesInterfaces_append (f : Nat → ℚ) (penalty : Bool) :
    ∀ (l1 l2 : List Interface) (off : Nat),
      saveForcesInterfaces f penalty (l1 ++ l2) off
        = ((saveForcesInterfaces f penalty l1 off).1
            ++ (saveForcesInterfaces f penalty l2
                (saveForcesInterfaces f penalty l1 off).2).1,
           (saveForcesInterfaces f penalty l2
              (saveForcesInterfaces f penalty l1 off).2).2) := by
  intro l1
  induction l1 with
  | nil => intro l2 off; simp [saveForcesInterfaces]
  | cons itf t ih =>
    intro l2 off
    simp [saveForcesInterfaces, ih]

/-- The edge loop is the interface loop over the flattened interfaces. -/
theorem saveForcesEdges_flat (f : Nat → ℚ) (penalty : Bool) :
    ∀ (es : List CEdge) (off : Nat),
      flatInterfaces (saveForcesEdges f penalty es off).1
          = (saveForcesInterfaces f penalty (flatInterfaces es) off).1
      ∧ (saveForcesEdges f penalty es off).2
          = (saveForcesInterfaces f penalty (flatInterfaces es) off).2 := by
  intro es
  induction es with
  | nil => intro off; simp [saveForcesEdges, flatInterfaces, saveForcesInterfaces]
  | cons e t ih =>
    intro off
    have happ := saveForcesInterfaces_append f penalty e.interfaces (flatInterfaces t) off
    simp only [saveForcesEdges, flatInterfaces, List.flatMap_cons] at happ ⊢
    rw [happ]
    have h1 := (ih (saveForcesInterfaces f penalty e.interfaces off).2).1
    have h2 := (ih (saveForcesInterfaces f penalty e.interfaces off).2).2
    simp only [flatInterfaces] at h1 h2
    exact ⟨by rw [h1], by rw [h2]⟩

/-- The j-th interface after the interface loop keeps its points and gets
the fresh forces list starting at the accumulated offset. -/
theorem saveForcesInterfaces_getD (f : Nat → ℚ) (penalty : Bool) :
    ∀ (l : List Interface) (off j : Nat), j < l.length →
      (saveForcesInterfaces f penalty l off).1.getD j dItf
        = { l.getD j dItf with
            forces := interfaceForces f penalty
              (off + shiftOf penalty * pointCount (l.take j))
              (l.getD j dItf).points.length } := by
  intro l
  induction l with
  | nil => intro off j hj; exact absurd hj (Nat.not_lt_zero j)
  | cons itf t ih =>
    intro off j hj
    cases j with
    | zero =>
      simp [saveForcesInterfaces, pointCount]
    | succ j2 =>
      simp only [saveForcesInterfaces, List.getD_cons_succ]
      rw [ih (off + shiftOf penalty * itf.points.length) j2 (Nat.lt_of_succ_lt_succ hj)]
      have hoff : off + shiftOf penalty * itf.points.length
          + shiftOf penalty * pointCount (t.take j2)
          = off + shiftOf penalty * pointCount ((itf :: t).take (j2 + 1)) := by
        simp [pointCount, List.take_succ_cons, Nat.mul_add, Nat.add_assoc]
      rw [hoff]

/-- The interface loop does not change the points of any interface. -/
theorem saveForcesInterfaces_points (f : Nat → ℚ) (penalty : Bool) :
    ∀ (l : List Interface) (off j : Nat),
      ((saveForcesInterfaces f penalty l off).1.getD j dItf).points
        = (l.getD j dItf).points := by
  intro l
  induction l with
  | nil => intro off j; simp [saveForcesInterfaces]
  | cons itf t ih =>
    intro off j
    cases j with
    | zero => simp [saveForcesInterfaces]
    | succ j2 =>
      simp only [saveForcesInterfaces, List.getD_cons_succ]
      exact ih _ j2

/-- The interface loop keeps the number of interfaces. -/
theorem saveForcesInterfaces_length (f : Nat → ℚ) (penalty : Bool) :
    ∀ (l : List Interface) (off : Nat),
      (saveForcesInterfaces f penalty l off).1.length = l.length := by
  intro l
  induction l with
  | nil => intro off; rfl
  | cons itf t ih => intro off; simp [saveForcesInterfaces, ih]

/-- The edge loop keeps the number of edges. -/
theorem saveForcesEdges_length (f : Nat → ℚ) (penalty : Bool) :
    ∀ (es : List CEdge) (off : Nat),
      (saveForcesEdges f penalty es off).1.length = es.length := by
  intro es
  induction es with
  | nil => intro off; rfl
  | cons e t ih => intro off; simp [saveForcesEdges, ih]

/-- The edge loop keeps every edge's endpoints, its number of interfaces
and their points. -/
theorem saveForcesEdges_frame (f : Nat → ℚ) (penalty : Bool) :
    ∀ (es : List CEdge) (off e : Nat),
      ((saveForcesEdges f penalty es off).1.getD e dEdge).u = (es.getD e dEdge).u
      ∧ ((saveForcesEdges f penalty es off).1.getD e dEdge).v = (es.getD e dEdge).v
      ∧ ((saveForcesEdges f penalty es off).1.getD e dEdge).interfaces.length
          = (es.getD e dEdge).interfaces.length
      ∧ ∀ t2, (((saveForcesEdges f penalty es off).1.getD e dEdge).interfaces.getD
            t2 dItf).points
          = ((es.getD e dEdge).interfaces.getD t2 dItf).points := by
  intro es
  induction es with
  | nil => intro off e; exact ⟨rfl, rfl, rfl, fun _ => rfl⟩
  | cons e0 t ih =>
    intro off e
    cases e with
    | zero =>
      refine ⟨rfl, rfl, ?_, ?_⟩
      · simp [saveForcesEdges, saveForcesInterfaces_length]
      · intro t2
        simp only [saveForcesEdges, List.getD_cons_zero]
        exact saveForcesInterfaces_points f penalty e0.interfaces off t2
    | succ e2 =>
      simp only [saveForcesEdges, List.getD_cons_succ]
      exact ih _ e2

/-- The displacement loop leaves support nodes alone and gives the j-th
node, when free, the q-slice starting at the offset plus six per earlier
free node. -/
theorem saveDisplacements_getD (q : List ℚ) :
    ∀ (l : List CNode) (off j : Nat), j < l.length →
      (saveDisplacements q l off).getD j dNode
        = (if (l.getD j dNode).is_support then l.getD j dNode
           else { l.getD j dNode with
              displacement :=
                some ((q.drop (off + 6 * countFree (l.take j))).take 6) }) := by
  intro l
  induction l with
  | nil => intro off j hj; exact absurd hj (Nat.not_lt_zero j)
  | cons node t ih =>
    intro off j hj
    cases hs : node.is_support with
    | true =>
      cases j with
      | zero => simp [saveDisplacements, hs, countFree]
      | succ j2 =>
        simp only [saveDisplacements, hs, if_true, List.getD_cons_succ]
        rw [ih off j2 (Nat.lt_of_succ_lt_succ hj)]
        have hcf : countFree (t.take j2) = countFree ((node :: t).take (j2 + 1)) := by
          simp [countFree, List.take_succ_cons, List.filter_cons, hs]
        rw [hcf]
    | false =>
      cases j with
      | zero => simp [saveDisplacements, hs, countFree]
      | succ j2 =>
        simp only [saveDisplacements, hs, Bool.false_eq_true, if_false, List.getD_cons_succ]
        rw [ih (off + 6) j2 (Nat.lt_of_succ_lt_succ hj)]
        have hcf : off + 6 + 6 * countFree (t.take j2)
            = off + 6 * countFree ((node :: t).take (j2 + 1)) := by
          simp [countFree, List.take_succ_cons, List.filter_cons, hs, Nat.mul_add,
            Nat.mul_succ, Nat.add_assoc]
          omega
        rw [hcf]

/-- The displacement loop keeps the number of nodes. -/
theorem saveDisplacements_length (q : List ℚ) :
    ∀ (l : List CNode) (off : Nat), (saveDisplacements q l off).length = l.length := by
  intro l
  induction l with
  | nil => intro off; rfl
  | cons node t ih =>
    intro off
    cases hs : node.is_support <;> simp [saveDisplacements, hs, ih]

/-- The displacement loop keeps every node's key, support flag and
volume. -/
theorem saveDisplacements_frame (q : List ℚ) :
    ∀ (l : List CNode) (off j : Nat),
      ((saveDisplacements q l off).getD j dNode).key = (l.getD j dNode).key
      ∧ ((saveDisplacements q l off).getD j dNode).is_support
          = (l.getD j dNode).is_support
      ∧ ((saveDisplacements q l off).getD j dNode).volume = (l.getD j dNode).volume := by
  intro l
  induction l with
  | nil => intro off j; exact ⟨rfl, rfl, rfl⟩
  | cons node t ih =>
    intro off j
    cases hs : node.is_support with
    | true =>
      cases j with
      | zero => simp [saveDisplacements, hs]
      | succ j2 =>
        simp only [saveDisplacements, hs, if_true, List.getD_cons_succ]
        exact ih off j2
    | false =>
      cases j with
      | zero => simp [saveDisplacements, hs]
      | succ j2 =>
        simp only [saveDisplacements, hs, Bool.false_eq_true, if_false, List.getD_cons_succ]
        exact ih (off + 6) j2

/-- The displacement loop keeps the displacement attribute of every
support node. -/
theorem saveDisplacements_support_keep (q : List ℚ) :
    ∀ (l : List CNode) (off j : Nat),
      (l.getD j dNode).is_support = true →
      ((saveDisplacements q l off).getD j dNode).displacement
        = (l.getD j dNode).displacement := by
  intro l
  induction l with
  | nil => intro off j _; rfl
  | cons node t ih =>
    intro off j hs
    cases j with
    | zero =>
      rw [List.getD_cons_zero] at hs
      simp [saveDisplacements, hs]
    | succ j2 =>
      rw [List.getD_cons_succ] at hs
      cases hn : node.is_support with
      | true =>
        simp only [saveDisplacements, hn, if_true, List.getD_cons_succ]
        exact ih off j2 hs
      | false =>
        simp only [saveDisplacements, hn, Bool.false_eq_true, if_false,
          List.getD_cons_succ]
        exact ih (off + 6) j2 hs

/-- C3: pyomo_result_assembly reads the forces of the i-th contact point of
the j-th interface (in edge-then-interface traversal order) at the flat
indices offset + shift * i + k, with shift 4 when penalty else 3 and the
offset advanced by shift * n per earlier interface; with shift 3 the c_nn
component is the constant 0 and c_u, c_v sit at offsets 1 and 2, with
shift 4 c_nn sits at offset 1 and c_u, c_v at offsets 2 and 3. -/
theorem pyomo_result_assembly_forces (model : SolvedModel) (assembly : Assembly)
    (penalty : Bool) (j : Nat) (hj : j < (flatInterfaces assembly.edges).length) :
    ((flatInterfaces (pyomo_result_assembly model assembly penalty).edges).getD
        j dItf).forces
      = (List.range ((flatInterfaces assembly.edges).getD j dItf).points.length).map
          (claimPointForce model.f penalty
            (claimOffset penalty (flatInterfaces assembly.edges) j)) := by
  have hflat := (saveForcesEdges_flat model.f penalty assembly.edges 0).1
  simp only [pyomo_result_assembly]
  rw [hflat, saveForcesInterfaces_getD model.f penalty (flatInterfaces assembly.edges)
    0 j hj]
  cases penalty <;>
    simp [interfaceForces, pointForce, claimPointForce, claimOffset, shiftOf]

/-- C3 witness: in the concrete assembly the single flattened interface has
its two contact points read with shift 3 from offset 0. -/
theorem pyomo_result_assembly_forces_witness :
    ((flatInterfaces (pyomo_result_assembly exModel exAssembly false).edges).getD
        0 dItf).forces
      = (List.range ((flatInterfaces exAssembly.edges).getD 0 dItf).points.length).map
          (claimPointForce exModel.f false
            (claimOffset false (flatInterfaces exAssembly.edges) 0)) :=
  pyomo_result_assembly_forces exModel exAssembly false 0 (by decide)

/-- C4: displacements are written back only when the model has a component
q; support nodes are skipped, and the k-th non-support node in iteration
order receives the slice q[6k : 6k + 6] as its displacement attribute. -/
theorem pyomo_result_assembly_displacements (model : SolvedModel)
    (assembly : Assembly) (penalty : Bool) :
    (model.q = none → (pyomo_result_assembly model assembly penalty).nodes
        = assembly.nodes)
    ∧ ∀ q, model.q = some q → ∀ j, j < assembly.nodes.length →
        (pyomo_result_assembly model assembly penalty).nodes.getD j dNode
          = (if (assembly.nodes.getD j dNode).is_support
             then assembly.nodes.getD j dNode
             else { assembly.nodes.getD j dNode with
                displacement := some ((q.drop
                  (6 * countFree (assembly.nodes.take j))).take 6) }) := by
  constructor
  · intro hq
    simp [pyomo_result_assembly, hq]
  · intro q hq j hj
    simp only [pyomo_result_assembly, hq]
    have h := saveDisplacements_getD q assembly.nodes 0 j hj
    simpa using h

/-- C4 witness: node 1 of the concrete assembly is not a support and
receives q[0 : 6]. -/
theorem pyomo_result_assembly_displacements_witness :
    (pyomo_result_assembly exModel exAssembly false).nodes.getD 1 dNode
      = (if (exAssembly.nodes.getD 1 dNode).is_support
         then exAssembly.nodes.getD 1 dNode
         else { exAssembly.nodes.getD 1 dNode with
            displacement := some ((([1, 2, 3, 4, 5, 6] : List ℚ).drop
              (6 * countFree (exAssembly.nodes.take 1))).take 6) }) :=
  (pyomo_result_assembly_displacements exModel exAssembly false).2
    [1, 2, 3, 4, 5, 6] rfl 1 (by decide)

/-- C10: pyomo_result_assembly changes nothing but interface forces and
non-support displacements: the node count, every node's key, support flag
and volume, the edge count, every edge's endpoints, its interface count and
every interface's points are unchanged; moreover the nodes are untouched
when the model has no component q, and every support node keeps its
displacement attribute. -/
theorem pyomo_result_assembly_frame (model : SolvedModel) (assembly : Assembly)
    (penalty : Bool) :
    (pyomo_result_assembly model assembly penalty).nodes.length
        = assembly.nodes.length
    ∧ (∀ j, ((pyomo_result_assembly model assembly penalty).nodes.getD j dNode).key
          = (assembly.nodes.getD j dNode).key
        ∧ ((pyomo_result_assembly model assembly penalty).nodes.getD j dNode).is_support
          = (assembly.nodes.getD j dNode).is_support
        ∧ ((pyomo_result_assembly model assembly penalty).nodes.getD j dNode).volume
          = (assembly.nodes.getD j dNode).volume)
    ∧ (pyomo_result_assembly model assembly penalty).edges.length
        = assembly.edges.length
    ∧ (∀ e, ((pyomo_result_assembly model assembly penalty).edges.getD e dEdge).u
          = (assembly.edges.getD e dEdge).u
        ∧ ((pyomo_result_assembly model assembly penalty).edges.getD e dEdge).v
          = (assembly.edges.getD e dEdge).v
        ∧ ((pyomo_result_assembly model assembly penalty).edges.getD
            e dEdge).interfaces.length
          = (assembly.edges.getD e dEdge).interfaces.length
        ∧ ∀ t2, (((pyomo_result_assembly model assembly penalty).edges.getD
              e dEdge).interfaces.getD t2 dItf).points
            = ((assembly.edges.getD e dEdge).interfaces.getD t2 dItf).points)
    ∧ (model.q = none → (pyomo_result_assembly model assembly penalty).nodes
        = assembly.nodes)
    ∧ ∀ j, (assembly.nodes.getD j dNode).is_support = true →
        ((pyomo_result_assembly model assembly penalty).nodes.getD
            j dNode).displacement
          = (assembly.nodes.getD j dNode).displacement := by
  refine ⟨?_, ?_, ?_, ?_, ?_, ?_⟩
  · cases hq : model.q with
    | none => simp [pyomo_result_assembly, hq]
    | some q => simp [pyomo_result_assembly, hq, saveDisplacements_length]
  · intro j
    cases hq : model.q with
    | none => simp [pyomo_result_assembly, hq]
    | some q =>
      simp only [pyomo_result_assembly, hq]
      exact saveDisplacements_frame q assembly.nodes 0 j
  · simp [pyomo_result_assembly, saveForcesEdges_length]
  · intro e
    simp only [pyomo_result_assembly]
    exact saveForcesEdges_frame model.f penalty assembly.edges 0 e
  · intro hq
    simp [pyomo_result_assembly, hq]
  · intro j hs
    cases hq : model.q with
    | none => simp [pyomo_result_assembly, hq]
    | some q =>
      simp only [pyomo_result_assembly, hq]
      exact saveDisplacements_support_keep q assembly.nodes 0 j hs

/-- C10 witness: node 0 of the concrete assembly is a support and keeps its
displacement attribute through the write-back. -/
theorem pyomo_result_assembly_frame_witness :
    ((pyomo_result_assembly exModel exAssembly false).nodes.getD
        0 dNode).displacement
      = (exAssembly.nodes.getD 0 dNode).displacement :=
  (pyomo_result_assembly_frame exModel exAssembly false).2.2.2.2.2 0 (by decide)

end CompasCra
